import Mathlib

/-!
Verification of the B-spline basis transformer implemented in
posts/cubic_splines/general_spline_impl.py.

The Python class BSpline is shallowly embedded here over exact rational
arithmetic (ℚ in place of IEEE doubles):

  * knot vectors are lists of rationals, indexed as in numpy with a total
    getter (every index the algorithm uses is proved in bounds separately);
  * _bspline_basis is the function bsplineBasis: span search (findSpan),
    degree-0 initialization (degree0Init) and the Cox-de Boor elevation
    loop (coxStep / basisLevel);
  * fit is fitE, building the padded knot vector from quantile-derived or
    explicit interior knots; transform is transformE;
  * Python exceptions are modelled with an Except monad: the single
    ValueError raised by fit's shape check, the AttributeError raised by
    reading the fitted attributes before fit, and the numpy error raised
    by reductions over empty input (whose precise Python class is not
    modelled).
-/

namespace BSplineImpl

/-- knots[i]: read of the knot vector, out-of-range reads give a junk
default (all reads performed by the algorithm are in bounds; see the
checked evaluator below). -/
def kt (knots : List ℚ) (i : ℕ) : ℚ := knots.getD i 0

/-- n_bases = len(knots) - degree - 1 (line 164 / line 105 of the source). -/
def nBases (knots : List ℚ) (degree : ℕ) : ℕ := knots.length - degree - 1

/-- np.searchsorted(knots, x, side=right) on a sorted array: the number of
entries ≤ x, i.e. the insertion index keeping the array sorted with x
placed after its duplicates. -/
def searchsortedRight (knots : List ℚ) (x : ℚ) : ℕ :=
  knots.countP (fun k => decide (k ≤ x))

/-- Span location, lines 169-174 of the source:
if x == knots[-1] then span = n_bases - 1 else
span = max(degree, min(searchsorted(knots, x, right) - 1, n_bases - 1)).
Computed in ℤ exactly as Python ints behave. -/
def findSpan (knots : List ℚ) (degree : ℕ) (x : ℚ) : ℤ :=
  if x = kt knots (knots.length - 1) then (nBases knots degree : ℤ) - 1
  else max (degree : ℤ)
    (min ((searchsortedRight knots x : ℤ) - 1) ((nBases knots degree : ℤ) - 1))

/-- Degree-0 initialization, lines 177-179: a zero vector with a single 1.0
written at index span, guarded by span < n_bases. -/
def degree0Init (nb : ℕ) (span : ℤ) : ℕ → ℚ :=
  fun i => if (i : ℤ) = span ∧ span < (nb : ℤ) then 1 else 0

/-- Left term of the Cox-de Boor step at level d, lines 186-190:
skipped when basis_prev[i] == 0 and when the denominator is exactly 0. -/
def coxL (knots : List ℚ) (x : ℚ) (d : ℕ) (prev : ℕ → ℚ) (i : ℕ) : ℚ :=
  if prev i ≠ 0 then
    if kt knots (i + d) - kt knots i ≠ 0 then
      (x - kt knots i) / (kt knots (i + d) - kt knots i) * prev i
    else 0
  else 0

/-- Right term of the Cox-de Boor step at level d, lines 192-196:
skipped when i + 1 ≥ n_bases, when basis_prev[i+1] == 0 and when the
denominator is exactly 0. -/
def coxR (knots : List ℚ) (x : ℚ) (nb d : ℕ) (prev : ℕ → ℚ) (i : ℕ) : ℚ :=
  if i + 1 < nb ∧ prev (i + 1) ≠ 0 then
    if kt knots (i + d + 1) - kt knots (i + 1) ≠ 0 then
      (kt knots (i + d + 1) - x) / (kt knots (i + d + 1) - kt knots (i + 1)) * prev (i + 1)
    else 0
  else 0

/-- The coefficient multiplying basis_prev[i] in the left term (with the
0/0 := 0 convention folded in); coxL = coxA * prev i pointwise. -/
def coxA (knots : List ℚ) (x : ℚ) (d i : ℕ) : ℚ :=
  if kt knots (i + d) - kt knots i ≠ 0 then
    (x - kt knots i) / (kt knots (i + d) - kt knots i)
  else 0

/-- The coefficient multiplying basis_prev[i+1] in the right term;
coxR = coxB * prev (i+1) when i + 1 < n_bases. -/
def coxB (knots : List ℚ) (x : ℚ) (d i : ℕ) : ℚ :=
  if kt knots (i + d + 1) - kt knots (i + 1) ≠ 0 then
    (kt knots (i + d + 1) - x) / (kt knots (i + d + 1) - kt knots (i + 1))
  else 0

/-- One level of the recursion, lines 183-196: basis_curr = np.zeros(n_bases)
followed by the loop over i in range(n_bases) accumulating both terms. -/
def coxStep (knots : List ℚ) (x : ℚ) (nb d : ℕ) (prev : ℕ → ℚ) : ℕ → ℚ :=
  fun i => if i < nb then coxL knots x d prev i + coxR knots x nb d prev i else 0

/-- basis_prev after d iterations of the loop `for d in range(1, degree + 1)`
(lines 182-198), starting from the degree-0 indicator. -/
def basisLevel (knots : List ℚ) (x : ℚ) (nb : ℕ) (span : ℤ) : ℕ → ℕ → ℚ
  | 0 => degree0Init nb span
  | d + 1 => coxStep knots x nb (d + 1) (basisLevel knots x nb span d)

/-- The method _bspline_basis(x, degree, knots): the vector of all n_bases
basis values at x, returned as the final-level vector. -/
def bsplineBasis (x : ℚ) (degree : ℕ) (knots : List ℚ) : List ℚ :=
  (List.range (nBases knots degree)).map
    (basisLevel knots x (nBases knots degree) (findSpan knots degree x) degree)

/-- Variant of _bspline_basis in which every array access is bounds-checked
(none is returned when any read or write would touch an index outside
[0, length) of the corresponding array): the read of knots[-1] needs a
nonempty knot vector; the degree-0 write at span must satisfy
0 ≤ span < n_bases whenever it fires (a negative index, which numpy would
wrap, is treated as out of bounds); the recursion reads knots at indices
up to (n_bases - 1) + degree + 1 whenever the loops run at all. -/
def bsplineBasisChecked (x : ℚ) (degree : ℕ) (knots : List ℚ) : Option (List ℚ) :=
  if knots.length = 0 then none
  else if findSpan knots degree x < (nBases knots degree : ℤ) ∧ findSpan knots degree x < 0 then
    none
  else if 1 ≤ degree ∧ 1 ≤ nBases knots degree ∧
      ¬(nBases knots degree + degree < knots.length) then
    none
  else some (bsplineBasis x degree knots)

/-! ### The knot-vector builder (fit) and the batch driver (transform) -/

/-- X_flat.min() (line 91): numpy reduction over a nonempty array;
the [] case is junk (the real code raises, which fitE models). -/
def dataMin : List ℚ → ℚ
  | [] => 0
  | a :: r => r.foldl min a

/-- X_flat.max() (line 91). -/
def dataMax : List ℚ → ℚ
  | [] => 0
  | a :: r => r.foldl max a

/-- The boundary padding factor 1e-10 (lines 94-95), exact in ℚ. -/
def eps : ℚ := 1 / 10 ^ 10

/-- x_min -= 1e-10 * (x_max - x_min) (line 94). -/
def padMin (xmin xmax : ℚ) : ℚ := xmin - eps * (xmax - xmin)

/-- x_max += 1e-10 * (x_max - x_min) (line 95): by this line x_min has
already been reassigned by line 94, so the increment uses the padded
minimum. -/
def padMax (xmin xmax : ℚ) : ℚ := xmax + eps * (xmax - padMin xmin xmax)

/-- Ascending insertion, used to model the sort performed inside
np.quantile. -/
def insertAsc (a : ℚ) : List ℚ → List ℚ
  | [] => [a]
  | b :: r => if a ≤ b then a :: b :: r else b :: insertAsc a r

/-- The sorted copy of the data that np.quantile works on. -/
def sortData : List ℚ → List ℚ
  | [] => []
  | a :: r => insertAsc a (sortData r)

/-- np.quantile(xs, q) with the default linear interpolation method:
with s the sorted data and h = q * (len - 1) the virtual index, the result
is s[floor h] + (h - floor h) * (s[floor h + 1] - s[floor h]). -/
def npQuantile (xs : List ℚ) (q : ℚ) : ℚ :=
  let s := sortData xs
  let n := s.length
  let h : ℚ := q * ((n : ℚ) - 1)
  let i : ℕ := (Int.floor h).toNat
  let lo := s.getD i 0
  let hi := s.getD (i + 1) lo
  lo + (h - (i : ℚ)) * (hi - lo)

/-- np.linspace(0, 1, m + 2)[1:-1] (line 86): the m interior probabilities
(i + 1) / (m + 1) for i in range(m). -/
def quantileProbs (m : ℕ) : List ℚ :=
  (List.range m).map (fun i : ℕ => ((i : ℚ) + 1) / ((m : ℚ) + 1))

/-- Constructor parameters of the BSpline estimator (degree, n_knots,
knots, include_bias). Degree is modelled as a natural number: every claim
under verification quantifies over degree ≥ 0. -/
structure BSplineCfg where
  degree : ℕ
  n_knots : ℕ
  knots : Option (List ℚ)
  include_bias : Bool

/-- The attributes set by fit: knots_ and n_bases_. -/
structure Fitted where
  knots_ : List ℚ
  n_bases_ : ℕ
deriving DecidableEq

/-- The Python exceptions the embedded operations can surface:
valueError is the explicit `raise ValueError` of fit's shape check;
attributeError is what reading self.knots_ / self.n_bases_ raises before
fit; emptyReduceError stands for the exception numpy raises when fit
reduces an empty array (its precise Python class is not modelled). -/
inductive PyErr
  | valueError
  | attributeError
  | emptyReduceError
deriving DecidableEq

/-- An array argument as accepted by fit/transform: either 1-D data
(reshaped by the code to a single column) or an already 2-D array given as
a nonempty list of rectangular rows. -/
inductive NpInput
  | one (xs : List ℚ)
  | two (rows : List (List ℚ))

/-- X.shape[1] after the ensure-2D step (lines 72-74 and 126-128):
1-D input is reshaped to one column; 2-D input keeps its column count
(rows are rectangular, so the first row's length is the column count). -/
def inputCols : NpInput → ℕ
  | .one _ => 1
  | .two rows => (rows.headD []).length

/-- X.ravel() (lines 79 and 130). -/
def ravel : NpInput → List ℚ
  | .one xs => xs
  | .two rows => rows.flatten

/-- Lines 82-87: explicit knots are used verbatim; otherwise the interior
knots are the sample quantiles of the data at the n_knots interior
probabilities. -/
def resolveInterior (cfg : BSplineCfg) (flat : List ℚ) : List ℚ :=
  match cfg.knots with
  | some ks => ks
  | none => (quantileProbs cfg.n_knots).map (npQuantile flat)

/-- Lines 97-101: knots_ = concat of (degree+1) copies of the padded min,
the interior knots, and (degree+1) copies of the padded max. -/
def buildKnotVector (degree : ℕ) (interior : List ℚ) (pmin pmax : ℚ) : List ℚ :=
  List.replicate (degree + 1) pmin ++ interior ++ List.replicate (degree + 1) pmax

/-- BSpline.fit (lines 55-107). The only validation the code performs is
the shape check `X.shape[1] != 1` (ValueError); on empty data the numpy
reductions/quantiles raise; otherwise the knot vector and n_bases_ are
computed and stored unconditionally. -/
def fitE (cfg : BSplineCfg) (X : NpInput) : Except PyErr Fitted :=
  if inputCols X ≠ 1 then .error .valueError
  else
    match ravel X with
    | [] => .error .emptyReduceError
    | a :: r =>
      .ok ⟨buildKnotVector cfg.degree (resolveInterior cfg (a :: r))
            (padMin (dataMin (a :: r)) (dataMax (a :: r)))
            (padMax (dataMin (a :: r)) (dataMax (a :: r))),
        (buildKnotVector cfg.degree (resolveInterior cfg (a :: r))
            (padMin (dataMin (a :: r)) (dataMax (a :: r)))
            (padMax (dataMin (a :: r)) (dataMax (a :: r)))).length - cfg.degree - 1⟩

/-- BSpline.transform (lines 109-144) given the optional fitted state:
before fit there is no state and reading self.n_bases_ raises
AttributeError; otherwise each raveled sample becomes one basis row and
column 0 is dropped when include_bias is false. transform performs no
shape check. -/
def transformE (cfg : BSplineCfg) (st : Option Fitted) (X : NpInput) :
    Except PyErr (List (List ℚ)) :=
  match st with
  | none => .error .attributeError
  | some st =>
    .ok (if cfg.include_bias then (ravel X).map (fun x => bsplineBasis x cfg.degree st.knots_)
      else ((ravel X).map (fun x => bsplineBasis x cfg.degree st.knots_)).map
        (fun r => r.drop 1))

/-- Boolean success of an embedded call (Python: no exception escaped). -/
def exceptIsOk {α : Type} (e : Except PyErr α) : Bool :=
  match e with
  | .ok _ => true
  | .error _ => false

/-- The knot vector stored by a successful fit ([] on failure); projection
used to state concrete facts without deciding equality of Except values. -/
def fittedKnots (e : Except PyErr Fitted) : List ℚ :=
  match e with
  | .ok st => st.knots_
  | .error _ => []

/-- The index of the first knot strictly greater than x (the length of the
longest prefix of knots that is ≤ x); this is the specification-side
description of the right-biased search, compared with searchsortedRight in
the span theorem. -/
def firstGTIndex (knots : List ℚ) (x : ℚ) : ℕ :=
  (knots.takeWhile (fun k => decide (k ≤ x))).length

/-- Concrete configuration used by witnesses: degree 1, explicit interior
knot 1/2, bias kept. -/
def demoCfg : BSplineCfg := ⟨1, 5, some [1 / 2], true⟩

/-- The state fit computes from demoCfg on data [0, 1] (written in the
exact shape fit produces, so that the fit equation holds by rfl). -/
def demoFit : Fitted :=
  ⟨buildKnotVector 1 (resolveInterior demoCfg [0, 1])
      (padMin (dataMin [0, 1]) (dataMax [0, 1])) (padMax (dataMin [0, 1]) (dataMax [0, 1])),
    (buildKnotVector 1 (resolveInterior demoCfg [0, 1])
      (padMin (dataMin [0, 1]) (dataMax [0, 1]))
      (padMax (dataMin [0, 1]) (dataMax [0, 1]))).length - 1 - 1⟩

/-- Concrete configuration for the constant-data scenario: degree 1, one
quantile knot, bias kept. -/
def constCfg : BSplineCfg := ⟨1, 1, none, true⟩

/-- The state fit computes from constCfg on the constant data [3]. -/
def constFit : Fitted :=
  ⟨buildKnotVector 1 (resolveInterior constCfg [3])
      (padMin (dataMin [3]) (dataMax [3])) (padMax (dataMin [3]) (dataMax [3])),
    (buildKnotVector 1 (resolveInterior constCfg [3])
      (padMin (dataMin [3]) (dataMax [3])) (padMax (dataMin [3]) (dataMax [3]))).length
      - 1 - 1⟩

-- sanity checks of the embedding on concrete inputs (spec §8 scenario:
-- degree 1, interior knots 2,4,6,8, data range [0,10], evaluated at the
-- midpoint 5 of the interval [4,6])
example :
    bsplineBasis 5 1 [0, 0, 2, 4, 6, 8, 10, 10] = [0, 0, 1/2, 1/2, 0, 0] := by
  norm_num [bsplineBasis, nBases, findSpan, kt, searchsortedRight, basisLevel,
    coxStep, coxL, coxR, degree0Init, List.range_succ, List.countP_cons]

example : bsplineBasis (1/2) 1 [0, 0, 1, 2, 2] = [1/2, 1/2, 0] := by
  norm_num [bsplineBasis, nBases, findSpan, kt, searchsortedRight, basisLevel,
    coxStep, coxL, coxR, degree0Init, List.range_succ, List.countP_cons]

example : (bsplineBasis (1/2) 3 [0, 0, 0, 0, 1, 1, 1, 1]).sum = 1 := by
  norm_num [bsplineBasis, nBases, findSpan, kt, searchsortedRight, basisLevel,
    coxStep, coxL, coxR, degree0Init, List.range_succ, List.countP_cons]

/-! ### Facts about sorted lists and the right-biased search -/

/-- Monotone access into a non-decreasing knot vector. -/
lemma kt_mono {knots : List ℚ} (hs : List.Sorted (· ≤ ·) knots) {i j : ℕ}
    (hij : i ≤ j) (hj : j < knots.length) : kt knots i ≤ kt knots j := by
  unfold kt
  rw [List.getD_eq_getElem knots 0 (lt_of_le_of_lt hij hj), List.getD_eq_getElem knots 0 hj]
  exact List.Sorted.rel_get_of_le hs hij

/-- In-range access is membership. -/
lemma kt_mem {knots : List ℚ} {i : ℕ} (hi : i < knots.length) : kt knots i ∈ knots := by
  unfold kt
  rw [List.getD_eq_getElem knots 0 hi]
  exact List.getElem_mem hi

lemma searchsortedRight_le_length (knots : List ℚ) (x : ℚ) :
    searchsortedRight knots x ≤ knots.length :=
  List.countP_le_length _

lemma ssr_cons_pos {a x : ℚ} (t : List ℚ) (hax : a ≤ x) :
    searchsortedRight (a :: t) x = searchsortedRight t x + 1 := by
  simp [searchsortedRight, List.countP_cons, hax]

lemma ssr_cons_neg {a x : ℚ} (t : List ℚ) (hax : ¬a ≤ x) :
    searchsortedRight (a :: t) x = searchsortedRight t x := by
  simp [searchsortedRight, List.countP_cons, hax]

/-- A sorted tail above a head > x contributes no entries ≤ x. -/
lemma ssr_eq_zero_of_head {a x : ℚ} {t : List ℚ} (hall : ∀ b ∈ t, a ≤ b)
    (hax : ¬a ≤ x) : searchsortedRight t x = 0 := by
  simp only [searchsortedRight, List.countP_eq_zero]
  intro b hb
  simp only [decide_eq_true_eq]
  intro hbx
  exact hax (le_trans (hall b hb) hbx)

/-- On a sorted array, positions strictly before the searchsorted result
hold entries ≤ x. -/
lemma kt_le_of_lt_ssr {x : ℚ} :
    ∀ {knots : List ℚ}, List.Sorted (· ≤ ·) knots →
      ∀ i : ℕ, i < searchsortedRight knots x → kt knots i ≤ x
  | [], _, i => by simp [searchsortedRight]
  | a :: t, hs, i => by
    have hst : List.Sorted (· ≤ ·) t := hs.of_cons
    have hall : ∀ b ∈ t, a ≤ b := List.rel_of_sorted_cons hs
    by_cases hax : a ≤ x
    · cases i with
      | zero => intro _; simpa [kt]
      | succ j =>
        intro hj
        rw [ssr_cons_pos t hax] at hj
        have hj' : j < searchsortedRight t x := by omega
        simpa [kt] using kt_le_of_lt_ssr hst j hj'
    · intro hj
      rw [ssr_cons_neg t hax, ssr_eq_zero_of_head hall hax] at hj
      omega

/-- On a sorted array, the entry at the searchsorted result (when it
exists) is strictly greater than x. -/
lemma lt_kt_ssr {x : ℚ} :
    ∀ {knots : List ℚ}, List.Sorted (· ≤ ·) knots →
      searchsortedRight knots x < knots.length → x < kt knots (searchsortedRight knots x)
  | [], _ => by simp [searchsortedRight]
  | a :: t, hs => by
    have hst : List.Sorted (· ≤ ·) t := hs.of_cons
    have hall : ∀ b ∈ t, a ≤ b := List.rel_of_sorted_cons hs
    by_cases hax : a ≤ x
    · intro hlen
      rw [ssr_cons_pos t hax] at hlen ⊢
      simp only [List.length_cons, Nat.add_lt_add_iff_right] at hlen
      simpa [kt] using lt_kt_ssr hst hlen
    · intro _
      rw [ssr_cons_neg t hax, ssr_eq_zero_of_head hall hax]
      simpa [kt] using lt_of_not_le hax

/-- On a sorted array, an in-range entry ≤ x lies strictly before the
searchsorted result. -/
lemma lt_ssr_of_kt_le {x : ℚ} :
    ∀ {knots : List ℚ}, List.Sorted (· ≤ ·) knots →
      ∀ i : ℕ, i < knots.length → kt knots i ≤ x → i < searchsortedRight knots x
  | [], _, i => by simp
  | a :: t, hs, i => by
    have hst : List.Sorted (· ≤ ·) t := hs.of_cons
    have hall : ∀ b ∈ t, a ≤ b := List.rel_of_sorted_cons hs
    intro hilen hile
    by_cases hax : a ≤ x
    · rw [ssr_cons_pos t hax]
      cases i with
      | zero => omega
      | succ j =>
        have : j < searchsortedRight t x := by
          apply lt_ssr_of_kt_le hst j (by simpa using hilen)
          simpa [kt] using hile
        omega
    · exfalso
      cases i with
      | zero => exact hax (by simpa [kt] using hile)
      | succ j =>
        have hjlen : j < t.length := by simpa using hilen
        have haj : a ≤ kt t j := hall _ (kt_mem hjlen)
        have : a ≤ x := le_trans haj (by simpa [kt] using hile)
        exact hax this

/-! ### The span location lemma

For a sorted knot vector of builder shape (length ≥ 2·(degree+1), so that
n_bases ≥ degree+1) and a query x inside the valid domain
[knots[degree], knots[n_bases]], the computed span is a plain natural
number sp with degree ≤ sp ≤ n_bases - 1, knots[sp] ≤ x, and either
x < knots[sp+1] or (sp+1 = n_bases and x = knots[n_bases]). -/

lemma span_spec (knots : List ℚ) (degree : ℕ) (x : ℚ)
    (hs : List.Sorted (· ≤ ·) knots)
    (hlen : 2 * degree + 2 ≤ knots.length)
    (hx1 : kt knots degree ≤ x) (hx2 : x ≤ kt knots (nBases knots degree)) :
    0 ≤ findSpan knots degree x ∧
    degree ≤ (findSpan knots degree x).toNat ∧
    (findSpan knots degree x).toNat + 1 ≤ nBases knots degree ∧
    kt knots (findSpan knots degree x).toNat ≤ x ∧
    (x < kt knots ((findSpan knots degree x).toNat + 1) ∨
      ((findSpan knots degree x).toNat + 1 = nBases knots degree ∧
        x = kt knots (nBases knots degree))) := by
  have hnb1 : degree + 1 ≤ nBases knots degree := by
    unfold nBases; omega
  have hnbl : nBases knots degree + degree + 1 = knots.length := by
    unfold nBases at *; omega
  set nb := nBases knots degree with hnbdef
  unfold findSpan
  by_cases hlast : x = kt knots (knots.length - 1)
  · rw [if_pos hlast]
    have h1 : kt knots nb ≤ kt knots (knots.length - 1) := kt_mono hs (by omega) (by omega)
    have hxnb : x = kt knots nb := le_antisymm hx2 (hlast ▸ h1)
    have htn : ((nb : ℤ) - 1).toNat = nb - 1 := by omega
    refine ⟨by omega, by omega, by omega, ?_, Or.inr ⟨by omega, hxnb⟩⟩
    rw [htn, hxnb]
    exact kt_mono hs (by omega) (by omega)
  · rw [if_neg hlast]
    set c := searchsortedRight knots x with hcdef
    have hcd : degree < c := lt_ssr_of_kt_le hs degree (by omega) hx1
    have hclen : c ≤ knots.length := searchsortedRight_le_length knots x
    rcases lt_or_eq_of_le hx2 with hxlt | hxeq
    · have hcnb : c ≤ nb := by
        by_contra h
        push_neg at h
        exact absurd (kt_le_of_lt_ssr hs nb h) (not_le.mpr hxlt)
      have hmax : max (degree : ℤ) (min ((c : ℤ) - 1) ((nb : ℤ) - 1)) = (c : ℤ) - 1 := by
        omega
      rw [hmax]
      have htn : ((c : ℤ) - 1).toNat = c - 1 := by omega
      rw [htn]
      refine ⟨by omega, by omega, by omega, ?_, Or.inl ?_⟩
      · exact kt_le_of_lt_ssr hs (c - 1) (by omega)
      · have hceq : c - 1 + 1 = c := by omega
        rw [hceq]
        exact lt_kt_ssr hs (by omega)
    · have hcnb : nb < c := lt_ssr_of_kt_le hs nb (by omega) (le_of_eq hxeq.symm)
      have hmax : max (degree : ℤ) (min ((c : ℤ) - 1) ((nb : ℤ) - 1)) = (nb : ℤ) - 1 := by
        omega
      rw [hmax]
      have htn : ((nb : ℤ) - 1).toNat = nb - 1 := by omega
      rw [htn]
      refine ⟨by omega, by omega, by omega, ?_, Or.inr ⟨by omega, hxeq⟩⟩
      rw [hxeq]
      exact kt_mono hs (by omega) (by omega)

/-- Weak upper bound derived from span_spec's disjunction. -/
lemma span_upper (knots : List ℚ) (degree : ℕ) (x : ℚ)
    (hs : List.Sorted (· ≤ ·) knots)
    (hlen : 2 * degree + 2 ≤ knots.length)
    (hx1 : kt knots degree ≤ x) (hx2 : x ≤ kt knots (nBases knots degree)) :
    x ≤ kt knots ((findSpan knots degree x).toNat + 1) := by
  rcases (span_spec knots degree x hs hlen hx1 hx2).2.2.2.2 with h | ⟨h1, h2⟩
  · exact le_of_lt h
  · rw [h1]; exact le_of_eq h2

/-- When additionally the last domain interval is non-degenerate
(knots[n_bases - 1] < knots[n_bases], guaranteed by the builder's epsilon
padding on non-constant data), the span interval is non-degenerate. -/
lemma span_strict (knots : List ℚ) (degree : ℕ) (x : ℚ)
    (hs : List.Sorted (· ≤ ·) knots)
    (hlen : 2 * degree + 2 ≤ knots.length)
    (hgap : kt knots (nBases knots degree - 1) < kt knots (nBases knots degree))
    (hx1 : kt knots degree ≤ x) (hx2 : x ≤ kt knots (nBases knots degree)) :
    kt knots (findSpan knots degree x).toNat < kt knots ((findSpan knots degree x).toNat + 1) := by
  obtain ⟨h0, hdeg, hnb, hle, hdisj⟩ := span_spec knots degree x hs hlen hx1 hx2
  rcases hdisj with h | ⟨h1, _⟩
  · exact lt_of_le_of_lt hle h
  · have : (findSpan knots degree x).toNat = nBases knots degree - 1 := by omega
    rw [this, h1] at *
    have h2 : nBases knots degree - 1 + 1 = nBases knots degree := by omega
    rw [h2]
    exact hgap

/-! ### The local-support window invariant and the Cox-de Boor step algebra -/

lemma coxL_ne_zero {knots : List ℚ} {x : ℚ} {d : ℕ} {prev : ℕ → ℚ} {i : ℕ}
    (h : coxL knots x d prev i ≠ 0) : prev i ≠ 0 := by
  intro hp
  apply h
  simp [coxL, hp]

lemma coxR_ne_zero {knots : List ℚ} {x : ℚ} {nb d : ℕ} {prev : ℕ → ℚ} {i : ℕ}
    (h : coxR knots x nb d prev i ≠ 0) : prev (i + 1) ≠ 0 := by
  intro hp
  apply h
  simp [coxR, hp]

/-- A nonzero entry of the level-d vector lies in the window of degree d+1
ending at the span: span.toNat - d ≤ i ≤ span.toNat. This holds for every
knot vector and every x, with no sortedness assumption. -/
lemma window_invariant (knots : List ℚ) (x : ℚ) (nb : ℕ) (span : ℤ) :
    ∀ d i, basisLevel knots x nb span d i ≠ 0 →
      span.toNat ≤ i + d ∧ i ≤ span.toNat := by
  intro d
  induction d with
  | zero =>
    intro i h
    simp only [basisLevel, degree0Init] at h
    split at h
    · rename_i hc
      omega
    · exact absurd rfl h
  | succ d ih =>
    intro i h
    simp only [basisLevel, coxStep] at h
    split at h
    · rename_i hi
      have hLR : coxL knots x (d + 1) (basisLevel knots x nb span d) i ≠ 0 ∨
          coxR knots x nb (d + 1) (basisLevel knots x nb span d) i ≠ 0 := by
        by_contra hb
        push_neg at hb
        rw [hb.1, hb.2] at h
        exact h (by ring)
      rcases hLR with hL | hR
      · have := ih i (coxL_ne_zero hL)
        omega
      · have := ih (i + 1) (coxR_ne_zero hR)
        omega
    · exact absurd rfl h

lemma coxL_eq (knots : List ℚ) (x : ℚ) (d : ℕ) (prev : ℕ → ℚ) (i : ℕ) :
    coxL knots x d prev i = coxA knots x d i * prev i := by
  unfold coxL coxA
  by_cases hp : prev i = 0
  · simp [hp]
  · by_cases hd : kt knots (i + d) - kt knots i ≠ 0
    · simp [hp, hd]
    · simp [hp, hd]

lemma coxR_eq (knots : List ℚ) (x : ℚ) (nb d : ℕ) (prev : ℕ → ℚ) (i : ℕ) :
    coxR knots x nb d prev i =
      if i + 1 < nb then coxB knots x d i * prev (i + 1) else 0 := by
  unfold coxR coxB
  by_cases hlt : i + 1 < nb
  · by_cases hp : prev (i + 1) = 0
    · simp [hlt, hp]
    · by_cases hd : kt knots (i + d + 1) - kt knots (i + 1) ≠ 0
      · simp [hlt, hp, hd]
      · simp [hlt, hp, hd]
  · simp [hlt]

/-- Telescoping identity: when the level-d window interval is
non-degenerate at i, the two coefficients feeding basis_prev[i] into the
next level sum to 1. -/
lemma coxA_add_coxB (knots : List ℚ) (x : ℚ) (d i : ℕ)
    (h : kt knots (i + d) - kt knots i ≠ 0) (hi : 1 ≤ i) :
    coxA knots x d i + coxB knots x d (i - 1) = 1 := by
  unfold coxA coxB
  have he1 : i - 1 + d + 1 = i + d := by omega
  have he2 : i - 1 + 1 = i := by omega
  rw [he1, he2, if_pos h, if_pos h, div_add_div_same,
    show x - kt knots i + (kt knots (i + d) - x) = kt knots (i + d) - kt knots i by ring]
  exact div_self h

/-- Reindexing of the right-term sum: the term g i fed forward from
position i to position i+1 can be re-read as the term g (i-1) received at
position i. -/
lemma sum_shift (g : ℕ → ℚ) (n : ℕ) :
    ∑ i ∈ Finset.range n, (if i + 1 < n then g i else 0)
      = ∑ i ∈ Finset.range n, (if 1 ≤ i then g (i - 1) else 0) := by
  cases n with
  | zero => simp
  | succ m =>
    rw [Finset.sum_range_succ, Finset.sum_range_succ']
    have h1 : ∀ i ∈ Finset.range m, (if i + 1 < m + 1 then g i else 0) = g i := by
      intro i hi
      rw [if_pos]
      have := Finset.mem_range.mp hi
      omega
    have h2 : ∀ i ∈ Finset.range m, (if 1 ≤ i + 1 then g (i + 1 - 1) else 0) = g i := by
      intro i _
      rw [if_pos (by omega)]
      simp
    rw [Finset.sum_congr rfl h1, Finset.sum_congr rfl h2]
    simp

/-- Bridge between the list sum of the returned row and the Finset sum of
the level function. -/
lemma sum_map_range (f : ℕ → ℚ) (n : ℕ) :
    ((List.range n).map f).sum = ∑ i ∈ Finset.range n, f i := by
  induction n with
  | zero => simp
  | succ m ih =>
    rw [List.range_succ, List.map_append, List.sum_append, Finset.sum_range_succ, ih]
    simp

/-! ### Non-negativity and partition of unity along the recursion -/

/-- Master invariant of the Cox-de Boor loop: at every level d ≤ degree,
all entries are non-negative and they sum to 1 over the n_bases slots,
for a sorted knot vector of builder shape with a non-degenerate last
domain interval and x in the valid domain. -/
lemma level_nonneg_sum (knots : List ℚ) (degree : ℕ) (x : ℚ)
    (hs : List.Sorted (· ≤ ·) knots)
    (hlen : 2 * degree + 2 ≤ knots.length)
    (hgap : kt knots (nBases knots degree - 1) < kt knots (nBases knots degree))
    (hx1 : kt knots degree ≤ x) (hx2 : x ≤ kt knots (nBases knots degree)) :
    ∀ d, d ≤ degree →
      (∀ i, 0 ≤ basisLevel knots x (nBases knots degree) (findSpan knots degree x) d i) ∧
      (∑ i ∈ Finset.range (nBases knots degree),
        basisLevel knots x (nBases knots degree) (findSpan knots degree x) d i) = 1 := by
  obtain ⟨hsp0, hspdeg, hspnb, hsple, _⟩ := span_spec knots degree x hs hlen hx1 hx2
  have hspup := span_upper knots degree x hs hlen hx1 hx2
  have hspstrict := span_strict knots degree x hs hlen hgap hx1 hx2
  have hnbl : nBases knots degree + degree + 1 = knots.length := by
    unfold nBases at *
    omega
  set nb := nBases knots degree with hnb
  set span := findSpan knots degree x with hspan
  set sp := span.toNat with hsp
  intro d
  induction d with
  | zero =>
    intro _
    have hinit : ∀ i, basisLevel knots x nb span 0 i = if i = sp then 1 else 0 := by
      intro i
      simp only [basisLevel, degree0Init]
      have hiff : ((i : ℤ) = span ∧ span < (nb : ℤ)) ↔ i = sp := by omega
      simp only [hiff]
    constructor
    · intro i
      rw [hinit i]
      split <;> norm_num
    · rw [Finset.sum_congr rfl (fun i _ => hinit i),
        Finset.sum_ite_eq' (Finset.range nb) sp (fun _ => (1 : ℚ))]
      rw [if_pos (Finset.mem_range.mpr (by omega))]
  | succ d ih =>
    intro hd1
    obtain ⟨hnn, hsum⟩ := ih (by omega)
    have hwin := window_invariant knots x nb span d
    have hkey : ∀ j, basisLevel knots x nb span d j ≠ 0 →
        kt knots j < kt knots (j + (d + 1)) := by
      intro j hj
      obtain ⟨hw1, hw2⟩ := hwin j hj
      have hj1 : kt knots j ≤ kt knots sp := kt_mono hs hw2 (by omega)
      have hj2 : kt knots (sp + 1) ≤ kt knots (j + (d + 1)) := kt_mono hs (by omega) (by omega)
      exact lt_of_le_of_lt hj1 (lt_of_lt_of_le hspstrict hj2)
    have hnonneg : ∀ i, 0 ≤ basisLevel knots x nb span (d + 1) i := by
      intro i
      simp only [basisLevel, coxStep]
      split
      · rename_i hi
        apply add_nonneg
        · rw [coxL_eq]
          by_cases hp : basisLevel knots x nb span d i = 0
          · simp [hp]
          · apply mul_nonneg _ (hnn i)
            obtain ⟨hw1, hw2⟩ := hwin i hp
            have hnum : 0 ≤ x - kt knots i :=
              sub_nonneg.mpr (le_trans (kt_mono hs hw2 (by omega)) hsple)
            have hden : 0 < kt knots (i + (d + 1)) - kt knots i :=
              sub_pos.mpr (hkey i hp)
            unfold coxA
            rw [if_pos (ne_of_gt hden)]
            exact div_nonneg hnum (le_of_lt hden)
        · rw [coxR_eq]
          split
          · rename_i hi1
            by_cases hp : basisLevel knots x nb span d (i + 1) = 0
            · simp [hp]
            · apply mul_nonneg _ (hnn (i + 1))
              obtain ⟨hw1, hw2⟩ := hwin (i + 1) hp
              have hnum : 0 ≤ kt knots (i + (d + 1) + 1) - x :=
                sub_nonneg.mpr (le_trans hspup (kt_mono hs (by omega) (by omega)))
              have hden : 0 < kt knots (i + (d + 1) + 1) - kt knots (i + 1) := by
                have hk := hkey (i + 1) hp
                have heq : i + 1 + (d + 1) = i + (d + 1) + 1 := by omega
                rw [heq] at hk
                exact sub_pos.mpr hk
              unfold coxB
              rw [if_pos (ne_of_gt hden)]
              exact div_nonneg hnum (le_of_lt hden)
          · exact le_refl 0
      · exact le_refl 0
    refine ⟨hnonneg, ?_⟩
    have hstep : ∀ i ∈ Finset.range nb,
        basisLevel knots x nb span (d + 1) i =
          coxA knots x (d + 1) i * basisLevel knots x nb span d i +
          (if i + 1 < nb then coxB knots x (d + 1) i * basisLevel knots x nb span d (i + 1)
            else 0) := by
      intro i hi
      simp only [basisLevel, coxStep, if_pos (Finset.mem_range.mp hi), coxL_eq, coxR_eq]
    rw [Finset.sum_congr rfl hstep, Finset.sum_add_distrib,
      sum_shift (fun j => coxB knots x (d + 1) j * basisLevel knots x nb span d (j + 1)) nb,
      ← Finset.sum_add_distrib]
    have hterm : ∀ i ∈ Finset.range nb,
        (coxA knots x (d + 1) i * basisLevel knots x nb span d i +
          (if 1 ≤ i then
            coxB knots x (d + 1) (i - 1) * basisLevel knots x nb span d (i - 1 + 1)
          else 0))
          = basisLevel knots x nb span d i := by
      intro i _
      by_cases hp : basisLevel knots x nb span d i = 0
      · by_cases hi1 : 1 ≤ i
        · have hieq : i - 1 + 1 = i := by omega
          rw [hieq, if_pos hi1, hp]
          ring
        · rw [if_neg hi1, hp]
          ring
      · obtain ⟨hw1, hw2⟩ := hwin i hp
        have hi1 : 1 ≤ i := by omega
        have hieq : i - 1 + 1 = i := by omega
        rw [if_pos hi1, hieq, ← add_mul,
          coxA_add_coxB knots x (d + 1) i (ne_of_gt (sub_pos.mpr (hkey i hp))) hi1, one_mul]
    rw [Finset.sum_congr rfl hterm, hsum]

/-- A Boolean predicate over List.range n that only holds inside a window
of b+1 consecutive indices is satisfied at most b+1 times. -/
lemma countP_range_le (p : ℕ → Bool) (n a b : ℕ)
    (h : ∀ i, i < n → p i = true → a ≤ i ∧ i ≤ a + b) :
    (List.range n).countP p ≤ b + 1 := by
  rw [List.countP_eq_length_filter]
  have hnd : ((List.range n).filter p).Nodup := List.Nodup.filter p (List.nodup_range n)
  rw [← List.toFinset_card_of_nodup hnd]
  have hsub : ((List.range n).filter p).toFinset ⊆ Finset.Icc a (a + b) := by
    intro i hi
    rw [List.mem_toFinset, List.mem_filter, List.mem_range] at hi
    exact Finset.mem_Icc.mpr (h i hi.1 hi.2)
  calc ((List.range n).filter p).toFinset.card
      ≤ (Finset.Icc a (a + b)).card := Finset.card_le_card hsub
    _ = b + 1 := by rw [Nat.card_Icc]; omega

/-- On a sorted array, the count of entries ≤ x is exactly the index of
the first entry strictly greater than x. -/
lemma sorted_ssr_eq_firstGT {x : ℚ} :
    ∀ {knots : List ℚ}, List.Sorted (· ≤ ·) knots →
      searchsortedRight knots x = firstGTIndex knots x
  | [], _ => rfl
  | a :: t, hs => by
    have hst : List.Sorted (· ≤ ·) t := hs.of_cons
    have hall : ∀ b ∈ t, a ≤ b := List.rel_of_sorted_cons hs
    by_cases hax : a ≤ x
    · rw [ssr_cons_pos t hax]
      have : firstGTIndex (a :: t) x = firstGTIndex t x + 1 := by
        simp [firstGTIndex, List.takeWhile, hax]
      rw [this, sorted_ssr_eq_firstGT hst]
    · rw [ssr_cons_neg t hax, ssr_eq_zero_of_head hall hax]
      have : firstGTIndex (a :: t) x = 0 := by
        simp [firstGTIndex, List.takeWhile, hax]
      rw [this]

/-! ### The claims -/

/-- Claim C1: for every degree ≥ 0, every well-formed knot vector produced
by the builder — sorted, of full builder length (≥ 2·(degree+1), so
n_bases ≥ degree+1), with a non-degenerate last domain interval
knots[n_bases-1] < knots[n_bases] (the epsilon padding guarantees this for
non-constant data) — and every query x within [knots[degree],
knots[n_bases]], the row returned by the evaluator sums to exactly 1
(partition of unity) and every entry is ≥ 0 (non-negativity). -/
theorem claim1_partition_of_unity_nonneg (knots : List ℚ) (degree : ℕ) (x : ℚ)
    (hs : List.Sorted (· ≤ ·) knots)
    (hlen : 2 * degree + 2 ≤ knots.length)
    (hgap : kt knots (nBases knots degree - 1) < kt knots (nBases knots degree))
    (hx1 : kt knots degree ≤ x) (hx2 : x ≤ kt knots (nBases knots degree)) :
    (bsplineBasis x degree knots).sum = 1 ∧
    ∀ q ∈ bsplineBasis x degree knots, 0 ≤ q := by
  obtain ⟨hnn, hsum⟩ := level_nonneg_sum knots degree x hs hlen hgap hx1 hx2 degree le_rfl
  constructor
  · rw [bsplineBasis, sum_map_range]
    exact hsum
  · intro q hq
    rw [bsplineBasis] at hq
    obtain ⟨i, _, rfl⟩ := List.mem_map.mp hq
    exact hnn i

/-- Witness for C1 at the builder-shaped vector [0,0,1,2,2] (degree 1,
interior knot 1) and x = 1/2. -/
theorem claim1_witness :
    List.Sorted (· ≤ ·) [(0 : ℚ), 0, 1, 2, 2] ∧
    2 * 1 + 2 ≤ ([(0 : ℚ), 0, 1, 2, 2]).length ∧
    kt [(0 : ℚ), 0, 1, 2, 2] (nBases [(0 : ℚ), 0, 1, 2, 2] 1 - 1) <
      kt [(0 : ℚ), 0, 1, 2, 2] (nBases [(0 : ℚ), 0, 1, 2, 2] 1) ∧
    kt [(0 : ℚ), 0, 1, 2, 2] 1 ≤ 1 / 2 ∧
    (1 / 2 : ℚ) ≤ kt [(0 : ℚ), 0, 1, 2, 2] (nBases [(0 : ℚ), 0, 1, 2, 2] 1) ∧
    ((bsplineBasis (1 / 2) 1 [(0 : ℚ), 0, 1, 2, 2]).sum = 1 ∧
      ∀ q ∈ bsplineBasis (1 / 2) 1 [(0 : ℚ), 0, 1, 2, 2], 0 ≤ q) := by
  have h1 : List.Sorted (· ≤ ·) [(0 : ℚ), 0, 1, 2, 2] := by decide
  have h2 : 2 * 1 + 2 ≤ ([(0 : ℚ), 0, 1, 2, 2]).length := by norm_num
  have h3 : kt [(0 : ℚ), 0, 1, 2, 2] (nBases [(0 : ℚ), 0, 1, 2, 2] 1 - 1) <
      kt [(0 : ℚ), 0, 1, 2, 2] (nBases [(0 : ℚ), 0, 1, 2, 2] 1) := by
    norm_num [kt, nBases]
  have h4 : kt [(0 : ℚ), 0, 1, 2, 2] 1 ≤ 1 / 2 := by norm_num [kt]
  have h5 : (1 / 2 : ℚ) ≤ kt [(0 : ℚ), 0, 1, 2, 2] (nBases [(0 : ℚ), 0, 1, 2, 2] 1) := by
    norm_num [kt, nBases]
  exact ⟨h1, h2, h3, h4, h5,
    claim1_partition_of_unity_nonneg [(0 : ℚ), 0, 1, 2, 2] 1 (1 / 2) h1 h2 h3 h4 h5⟩

/-- Claim C3: at each recursion level d ∈ [1, degree] and basis index
i < n_bases the evaluator computes curr[i] = L + R, where L is the left
term (zero when prev[i] = 0 or the denominator knots[i+d] - knots[i] is
zero) and R is the right term (zero when i+1 ≥ n_bases, prev[i+1] = 0 or
the denominator knots[i+d+1] - knots[i+1] is zero), prev being the
level-(d-1) vector; and the final-level vector is the returned row. -/
theorem claim3_recursion_step (knots : List ℚ) (x : ℚ) (degree d i : ℕ)
    (hd1 : 1 ≤ d) (hd2 : d ≤ degree) (hi : i < nBases knots degree) :
    (basisLevel knots x (nBases knots degree) (findSpan knots degree x) d i =
      (if basisLevel knots x (nBases knots degree) (findSpan knots degree x) (d - 1) i = 0 ∨
          kt knots (i + d) - kt knots i = 0 then 0
        else (x - kt knots i) / (kt knots (i + d) - kt knots i) *
          basisLevel knots x (nBases knots degree) (findSpan knots degree x) (d - 1) i)
      +
      (if nBases knots degree ≤ i + 1 ∨
          basisLevel knots x (nBases knots degree) (findSpan knots degree x) (d - 1) (i + 1)
            = 0 ∨
          kt knots (i + d + 1) - kt knots (i + 1) = 0 then 0
        else (kt knots (i + d + 1) - x) / (kt knots (i + d + 1) - kt knots (i + 1)) *
          basisLevel knots x (nBases knots degree) (findSpan knots degree x) (d - 1) (i + 1))) ∧
    bsplineBasis x degree knots =
      (List.range (nBases knots degree)).map
        (basisLevel knots x (nBases knots degree) (findSpan knots degree x) degree) := by
  refine ⟨?_, rfl⟩
  obtain ⟨e, rfl⟩ : ∃ e, d = e + 1 := ⟨d - 1, by omega⟩
  simp only [basisLevel, coxStep, if_pos hi, Nat.add_sub_cancel]
  congr 1
  · unfold coxL
    by_cases hp : basisLevel knots x (nBases knots degree) (findSpan knots degree x) e i = 0
    · simp [hp]
    · by_cases hden : kt knots (i + (e + 1)) - kt knots i = 0
      · simp [hp, hden]
      · simp [hp, hden]
  · unfold coxR
    by_cases hnb : i + 1 < nBases knots degree
    · have hnb2 : ¬nBases knots degree ≤ i + 1 := by omega
      by_cases hp :
          basisLevel knots x (nBases knots degree) (findSpan knots degree x) e (i + 1) = 0
      · simp [hnb, hp, hnb2]
      · by_cases hden : kt knots (i + (e + 1) + 1) - kt knots (i + 1) = 0
        · simp [hnb, hp, hden, hnb2]
        · simp [hnb, hp, hden, hnb2]
    · have hnb2 : nBases knots degree ≤ i + 1 := by omega
      simp [hnb, hnb2]

/-- Witness for C3 at knots [0,0,1,1], degree 1, level d = 1, i = 0,
x = 1/2. -/
theorem claim3_witness :
    1 ≤ 1 ∧ 1 ≤ 1 ∧ 0 < nBases [(0 : ℚ), 0, 1, 1] 1 ∧
    (basisLevel [(0 : ℚ), 0, 1, 1] (1 / 2) (nBases [(0 : ℚ), 0, 1, 1] 1)
        (findSpan [(0 : ℚ), 0, 1, 1] 1 (1 / 2)) 1 0 =
      (if basisLevel [(0 : ℚ), 0, 1, 1] (1 / 2) (nBases [(0 : ℚ), 0, 1, 1] 1)
            (findSpan [(0 : ℚ), 0, 1, 1] 1 (1 / 2)) (1 - 1) 0 = 0 ∨
          kt [(0 : ℚ), 0, 1, 1] (0 + 1) - kt [(0 : ℚ), 0, 1, 1] 0 = 0 then 0
        else ((1 / 2 : ℚ) - kt [(0 : ℚ), 0, 1, 1] 0) /
            (kt [(0 : ℚ), 0, 1, 1] (0 + 1) - kt [(0 : ℚ), 0, 1, 1] 0) *
          basisLevel [(0 : ℚ), 0, 1, 1] (1 / 2) (nBases [(0 : ℚ), 0, 1, 1] 1)
            (findSpan [(0 : ℚ), 0, 1, 1] 1 (1 / 2)) (1 - 1) 0)
      +
      (if nBases [(0 : ℚ), 0, 1, 1] 1 ≤ 0 + 1 ∨
          basisLevel [(0 : ℚ), 0, 1, 1] (1 / 2) (nBases [(0 : ℚ), 0, 1, 1] 1)
            (findSpan [(0 : ℚ), 0, 1, 1] 1 (1 / 2)) (1 - 1) (0 + 1) = 0 ∨
          kt [(0 : ℚ), 0, 1, 1] (0 + 1 + 1) - kt [(0 : ℚ), 0, 1, 1] (0 + 1) = 0 then 0
        else (kt [(0 : ℚ), 0, 1, 1] (0 + 1 + 1) - (1 / 2 : ℚ)) /
            (kt [(0 : ℚ), 0, 1, 1] (0 + 1 + 1) - kt [(0 : ℚ), 0, 1, 1] (0 + 1)) *
          basisLevel [(0 : ℚ), 0, 1, 1] (1 / 2) (nBases [(0 : ℚ), 0, 1, 1] 1)
            (findSpan [(0 : ℚ), 0, 1, 1] 1 (1 / 2)) (1 - 1) (0 + 1))) := by
  refine ⟨le_rfl, le_rfl, by norm_num [nBases], ?_⟩
  exact (claim3_recursion_step [(0 : ℚ), 0, 1, 1] (1 / 2) 1 1 0 le_rfl le_rfl
    (by norm_num [nBases])).1

/-- Claim C4: for x ≠ knots[last], the span is the right-biased search
result (index of the first knot strictly greater than x, minus one)
clamped into [degree, n_bases - 1]; for x = knots[last] the span is
assigned n_bases - 1 directly, with no clamping. -/
theorem claim4_span_search (knots : List ℚ) (degree : ℕ) (x : ℚ)
    (hs : List.Sorted (· ≤ ·) knots) :
    (x ≠ kt knots (knots.length - 1) →
      findSpan knots degree x =
        max (degree : ℤ)
          (min ((firstGTIndex knots x : ℤ) - 1) ((nBases knots degree : ℤ) - 1))) ∧
    (x = kt knots (knots.length - 1) →
      findSpan knots degree x = (nBases knots degree : ℤ) - 1) := by
  constructor <;> intro h <;> unfold findSpan
  · rw [if_neg h, sorted_ssr_eq_firstGT hs]
  · rw [if_pos h]

/-- Witness for C4 at knots [0,0,1,1], degree 1: both the generic branch
(x = 1/2) and the right-boundary branch (x = 1). -/
theorem claim4_witness :
    List.Sorted (· ≤ ·) [(0 : ℚ), 0, 1, 1] ∧
    (1 / 2 : ℚ) ≠ kt [(0 : ℚ), 0, 1, 1] (([(0 : ℚ), 0, 1, 1]).length - 1) ∧
    findSpan [(0 : ℚ), 0, 1, 1] 1 (1 / 2) =
      max ((1 : ℕ) : ℤ)
        (min ((firstGTIndex [(0 : ℚ), 0, 1, 1] (1 / 2) : ℤ) - 1)
          ((nBases [(0 : ℚ), 0, 1, 1] 1 : ℤ) - 1)) ∧
    (1 : ℚ) = kt [(0 : ℚ), 0, 1, 1] (([(0 : ℚ), 0, 1, 1]).length - 1) ∧
    findSpan [(0 : ℚ), 0, 1, 1] 1 1 = (nBases [(0 : ℚ), 0, 1, 1] 1 : ℤ) - 1 := by
  have hs : List.Sorted (· ≤ ·) [(0 : ℚ), 0, 1, 1] := by decide
  have hne : (1 / 2 : ℚ) ≠ kt [(0 : ℚ), 0, 1, 1] (([(0 : ℚ), 0, 1, 1]).length - 1) := by
    norm_num [kt]
  have heq : (1 : ℚ) = kt [(0 : ℚ), 0, 1, 1] (([(0 : ℚ), 0, 1, 1]).length - 1) := by
    norm_num [kt]
  exact ⟨hs, hne, (claim4_span_search [(0 : ℚ), 0, 1, 1] 1 (1 / 2) hs).1 hne, heq,
    (claim4_span_search [(0 : ℚ), 0, 1, 1] 1 1 hs).2 heq⟩

/-- Claim C6: for every degree, knot vector and query point, the returned
row has at most degree+1 non-zero entries, and every non-zero entry lies
in the window of degree+1 contiguous indices ending at the computed span
(no sortedness or well-formedness assumption is needed). -/
theorem claim6_local_support (x : ℚ) (degree : ℕ) (knots : List ℚ) :
    (bsplineBasis x degree knots).countP (fun q => decide (q ≠ 0)) ≤ degree + 1 ∧
    ∀ i, (bsplineBasis x degree knots).getD i 0 ≠ 0 →
      (findSpan knots degree x).toNat ≤ i + degree ∧
      i ≤ (findSpan knots degree x).toNat := by
  have hwin := window_invariant knots x (nBases knots degree) (findSpan knots degree x) degree
  constructor
  · rw [bsplineBasis, List.countP_map]
    apply countP_range_le _ _ ((findSpan knots degree x).toNat - degree) degree
    intro i _ hp
    have hne : basisLevel knots x (nBases knots degree) (findSpan knots degree x) degree i
        ≠ 0 := by
      simpa using of_decide_eq_true hp
    have := hwin i hne
    omega
  · intro i hne
    by_cases hi : i < nBases knots degree
    · have hget : (bsplineBasis x degree knots).getD i 0 =
          basisLevel knots x (nBases knots degree) (findSpan knots degree x) degree i := by
        rw [bsplineBasis, List.getD_eq_getElem _ _ (by simpa using hi)]
        simp
      rw [hget] at hne
      exact hwin i hne
    · exfalso
      apply hne
      rw [bsplineBasis]
      apply List.getD_eq_default
      simpa using by omega

/-- Witness for C6 at knots [0,0,1,1], degree 1, x = 1/2, index i = 0
(whose entry 1/2 is non-zero). -/
theorem claim6_witness :
    (bsplineBasis (1 / 2) 1 [(0 : ℚ), 0, 1, 1]).countP (fun q => decide (q ≠ 0)) ≤ 1 + 1 ∧
    ((bsplineBasis (1 / 2) 1 [(0 : ℚ), 0, 1, 1]).getD 0 0 ≠ 0 ∧
      (findSpan [(0 : ℚ), 0, 1, 1] 1 (1 / 2)).toNat ≤ 0 + 1 ∧
      0 ≤ (findSpan [(0 : ℚ), 0, 1, 1] 1 (1 / 2)).toNat) := by
  have hne : (bsplineBasis (1 / 2) 1 [(0 : ℚ), 0, 1, 1]).getD 0 0 ≠ 0 := by
    norm_num [bsplineBasis, nBases, findSpan, kt, searchsortedRight, basisLevel,
      coxStep, coxL, coxR, degree0Init, List.range_succ, List.countP_cons]
  have h := claim6_local_support (1 / 2) 1 [(0 : ℚ), 0, 1, 1]
  exact ⟨h.1, hne, (h.2 0 hne).1, by omega⟩

/-- Claim C7: for degree 0 and x in the valid domain [knots[0],
knots[n_bases]] of a sorted knot vector, the returned row is exactly the
one-hot indicator of the span index, and that index names the knot
interval containing x: knots[span] ≤ x ≤ knots[span+1]. -/
theorem claim7_degree0_onehot (knots : List ℚ) (x : ℚ)
    (hs : List.Sorted (· ≤ ·) knots) (hlen : 2 ≤ knots.length)
    (hx1 : kt knots 0 ≤ x) (hx2 : x ≤ kt knots (nBases knots 0)) :
    bsplineBasis x 0 knots =
      (List.range (nBases knots 0)).map
        (fun i => if i = (findSpan knots 0 x).toNat then 1 else 0) ∧
    kt knots (findSpan knots 0 x).toNat ≤ x ∧
    x ≤ kt knots ((findSpan knots 0 x).toNat + 1) := by
  obtain ⟨hsp0, _, hspnb, hsple, _⟩ := span_spec knots 0 x hs (by omega) hx1 hx2
  refine ⟨?_, hsple, span_upper knots 0 x hs (by omega) hx1 hx2⟩
  unfold bsplineBasis
  apply List.map_eq_map_iff.mpr
  intro i _
  simp only [basisLevel, degree0Init]
  have hiff : ((i : ℤ) = findSpan knots 0 x ∧ findSpan knots 0 x < (nBases knots 0 : ℤ)) ↔
      i = (findSpan knots 0 x).toNat := by omega
  simp only [hiff]

/-- Witness for C7 at knots [0,1,2], x = 3/2: the row is the one-hot
indicator of interval [1,2]. -/
theorem claim7_witness :
    List.Sorted (· ≤ ·) [(0 : ℚ), 1, 2] ∧
    2 ≤ ([(0 : ℚ), 1, 2]).length ∧
    kt [(0 : ℚ), 1, 2] 0 ≤ 3 / 2 ∧
    (3 / 2 : ℚ) ≤ kt [(0 : ℚ), 1, 2] (nBases [(0 : ℚ), 1, 2] 0) ∧
    (bsplineBasis (3 / 2) 0 [(0 : ℚ), 1, 2] =
      (List.range (nBases [(0 : ℚ), 1, 2] 0)).map
        (fun i => if i = (findSpan [(0 : ℚ), 1, 2] 0 (3 / 2)).toNat then 1 else 0) ∧
    kt [(0 : ℚ), 1, 2] (findSpan [(0 : ℚ), 1, 2] 0 (3 / 2)).toNat ≤ 3 / 2 ∧
    (3 / 2 : ℚ) ≤ kt [(0 : ℚ), 1, 2] ((findSpan [(0 : ℚ), 1, 2] 0 (3 / 2)).toNat + 1)) := by
  have h1 : List.Sorted (· ≤ ·) [(0 : ℚ), 1, 2] := by decide
  have h2 : 2 ≤ ([(0 : ℚ), 1, 2]).length := by norm_num
  have h3 : kt [(0 : ℚ), 1, 2] 0 ≤ 3 / 2 := by norm_num [kt]
  have h4 : (3 / 2 : ℚ) ≤ kt [(0 : ℚ), 1, 2] (nBases [(0 : ℚ), 1, 2] 0) := by
    norm_num [kt, nBases]
  exact ⟨h1, h2, h3, h4, claim7_degree0_onehot [(0 : ℚ), 1, 2] (3 / 2) h1 h2 h3 h4⟩

/-- Claim C9: for every x, degree and well-formed knot vector (length ≥
degree+2, i.e. n_bases ≥ 1), the bounds-checked evaluator performs no
out-of-range array access and agrees with the evaluator: in particular
the guarded degree-0 write stays inside [0, n_bases) and the recursion's
knot reads stay inside the vector. -/
theorem claim9_no_out_of_bounds (x : ℚ) (degree : ℕ) (knots : List ℚ)
    (hlen : degree + 2 ≤ knots.length) :
    bsplineBasisChecked x degree knots = some (bsplineBasis x degree knots) := by
  have hnb : nBases knots degree + degree + 1 = knots.length := by
    unfold nBases
    omega
  have hspan : 0 ≤ findSpan knots degree x := by
    unfold findSpan
    split
    · omega
    · have h1 : (degree : ℤ) ≤ max (degree : ℤ)
          (min ((searchsortedRight knots x : ℤ) - 1) ((nBases knots degree : ℤ) - 1)) :=
        le_max_left _ _
      omega
  unfold bsplineBasisChecked
  rw [if_neg (by omega : ¬knots.length = 0),
    if_neg (by omega : ¬(findSpan knots degree x < (nBases knots degree : ℤ) ∧
      findSpan knots degree x < 0)),
    if_neg (by omega :
      ¬(1 ≤ degree ∧ 1 ≤ nBases knots degree ∧
        ¬(nBases knots degree + degree < knots.length)))]

/-- Witness for C9 at knots [0,0,1,1], degree 1, x = 1/2. -/
theorem claim9_witness :
    1 + 2 ≤ ([(0 : ℚ), 0, 1, 1]).length ∧
    bsplineBasisChecked (1 / 2) 1 [(0 : ℚ), 0, 1, 1] =
      some (bsplineBasis (1 / 2) 1 [(0 : ℚ), 0, 1, 1]) :=
  ⟨by norm_num, claim9_no_out_of_bounds (1 / 2) 1 [(0 : ℚ), 0, 1, 1] (by norm_num)⟩

/-! ### Builder-side helper lemmas -/

lemma foldl_min_le (r : List ℚ) : ∀ a : ℚ, r.foldl min a ≤ a := by
  induction r with
  | nil => intro a; exact le_refl a
  | cons b t ih =>
    intro a
    calc (b :: t).foldl min a = t.foldl min (min a b) := rfl
      _ ≤ min a b := ih (min a b)
      _ ≤ a := min_le_left a b

lemma le_foldl_max (r : List ℚ) : ∀ a : ℚ, a ≤ r.foldl max a := by
  induction r with
  | nil => intro a; exact le_refl a
  | cons b t ih =>
    intro a
    calc a ≤ max a b := le_max_left a b
      _ ≤ t.foldl max (max a b) := ih (max a b)
      _ = (b :: t).foldl max a := rfl

lemma dataMin_le_dataMax (a : ℚ) (r : List ℚ) : dataMin (a :: r) ≤ dataMax (a :: r) :=
  le_trans (foldl_min_le r a) (le_foldl_max r a)

lemma padMin_le_padMax {xmin xmax : ℚ} (h : xmin ≤ xmax) :
    padMin xmin xmax ≤ padMax xmin xmax := by
  unfold padMax padMin eps
  nlinarith [sub_nonneg.mpr h]

lemma length_insertAsc (a : ℚ) : ∀ l : List ℚ, (insertAsc a l).length = l.length + 1 := by
  intro l
  induction l with
  | nil => rfl
  | cons b t ih =>
    unfold insertAsc
    split
    · simp
    · simp [ih]

lemma mem_insertAsc {a y : ℚ} : ∀ {l : List ℚ}, y ∈ insertAsc a l → y = a ∨ y ∈ l := by
  intro l
  induction l with
  | nil => intro h; simpa [insertAsc] using h
  | cons b t ih =>
    unfold insertAsc
    split
    · intro h
      rcases List.mem_cons.mp h with h1 | h2
      · exact Or.inl h1
      · exact Or.inr h2
    · intro h
      rcases List.mem_cons.mp h with h1 | h2
      · exact Or.inr (List.mem_cons.mpr (Or.inl h1))
      · rcases ih h2 with h3 | h4
        · exact Or.inl h3
        · exact Or.inr (List.mem_cons.mpr (Or.inr h4))

lemma length_sortData : ∀ l : List ℚ, (sortData l).length = l.length := by
  intro l
  induction l with
  | nil => rfl
  | cons a t ih => simp [sortData, length_insertAsc, ih]

lemma mem_sortData {y : ℚ} : ∀ {l : List ℚ}, y ∈ sortData l → y ∈ l := by
  intro l
  induction l with
  | nil => intro h; simp [sortData] at h
  | cons a t ih =>
    intro h
    rcases mem_insertAsc h with h1 | h2
    · exact List.mem_cons.mpr (Or.inl h1)
    · exact List.mem_cons.mpr (Or.inr (ih h2))

/-- The quantile of constant data is that constant (for probabilities in
[0,1]). -/
lemma npQuantile_const {l : List ℚ} {c q : ℚ} (hne : l ≠ [])
    (hmem : ∀ y ∈ l, y = c) (_hq0 : 0 ≤ q) (h1 : q ≤ 1) : npQuantile l q = c := by
  have hlen : (sortData l).length = l.length := length_sortData l
  have hlen1 : 1 ≤ l.length := by
    cases l with
    | nil => exact absurd rfl hne
    | cons a t => simp
  have hsmem : ∀ y ∈ sortData l, y = c := fun y hy => hmem y (mem_sortData hy)
  set n := (sortData l).length with hn
  have hn1 : (1 : ℚ) ≤ (n : ℚ) := by
    exact_mod_cast (by omega : 1 ≤ n)
  have hh : q * ((n : ℚ) - 1) ≤ (n : ℚ) - 1 := by
    nlinarith
  have hfl : (Int.floor (q * ((n : ℚ) - 1))).toNat < n := by
    have h2 : Int.floor (q * ((n : ℚ) - 1)) ≤ Int.floor ((n : ℚ) - 1) := Int.floor_le_floor hh
    have h4 : Int.floor ((n : ℚ) - 1) = (n : ℤ) - 1 := by
      rw [show ((n : ℚ) - 1) = (((n : ℤ) - 1 : ℤ) : ℚ) by push_cast; ring, Int.floor_intCast]
    omega
  have hlo : (sortData l).getD (Int.floor (q * ((n : ℚ) - 1))).toNat 0 = c := by
    rw [List.getD_eq_getElem _ _ hfl]
    exact hsmem _ (List.getElem_mem hfl)
  have hhi : ∀ dflt : ℚ, dflt = c →
      (sortData l).getD ((Int.floor (q * ((n : ℚ) - 1))).toNat + 1) dflt = c := by
    intro dflt hd
    by_cases hcase : (Int.floor (q * ((n : ℚ) - 1))).toNat + 1 < n
    · rw [List.getD_eq_getElem _ _ hcase]
      exact hsmem _ (List.getElem_mem hcase)
    · rw [List.getD_eq_default _ _ (by omega)]
      exact hd
  simp only [npQuantile]
  rw [← hn, hlo, hhi c rfl]
  ring

/-- Interior probabilities are within [0,1]. -/
lemma quantileProbs_bounds (m : ℕ) : ∀ q ∈ quantileProbs m, 0 ≤ q ∧ q ≤ 1 := by
  intro q hq
  unfold quantileProbs at hq
  rcases List.mem_map.mp hq with ⟨i, hi, heq⟩
  have him : i < m := List.mem_range.mp hi
  subst heq
  constructor
  · positivity
  · rw [div_le_one (by positivity)]
    have hcast : (i : ℚ) ≤ (m : ℚ) := by exact_mod_cast le_of_lt him
    linarith

lemma dataMin_const (c : ℚ) (m : ℕ) : dataMin (List.replicate (m + 1) c) = c := by
  rw [List.replicate_succ]
  unfold dataMin
  induction m with
  | zero => rfl
  | succ k ih =>
    rw [List.replicate_succ]
    calc (c :: List.replicate k c).foldl min c
        = (List.replicate k c).foldl min (min c c) := rfl
      _ = (List.replicate k c).foldl min c := by rw [min_self]
      _ = c := ih

lemma dataMax_const (c : ℚ) (m : ℕ) : dataMax (List.replicate (m + 1) c) = c := by
  rw [List.replicate_succ]
  unfold dataMax
  induction m with
  | zero => rfl
  | succ k ih =>
    rw [List.replicate_succ]
    calc (c :: List.replicate k c).foldl max c
        = (List.replicate k c).foldl max (max c c) := rfl
      _ = (List.replicate k c).foldl max c := by rw [max_self]
      _ = c := ih

lemma padMin_self (c : ℚ) : padMin c c = c := by
  simp [padMin]

lemma padMax_self (c : ℚ) : padMax c c = c := by
  simp [padMax, padMin]

/-- The row length of the evaluator output is always n_bases. -/
lemma bsplineBasis_length (x : ℚ) (degree : ℕ) (knots : List ℚ) :
    (bsplineBasis x degree knots).length = nBases knots degree := by
  simp [bsplineBasis]

/-- On nonempty 1-D input, fit reduces to success with the composed knot
vector. -/
lemma fitE_one_eq (cfg : BSplineCfg) (a : ℚ) (r : List ℚ) :
    fitE cfg (.one (a :: r)) =
      .ok ⟨buildKnotVector cfg.degree (resolveInterior cfg (a :: r))
            (padMin (dataMin (a :: r)) (dataMax (a :: r)))
            (padMax (dataMin (a :: r)) (dataMax (a :: r))),
        (buildKnotVector cfg.degree (resolveInterior cfg (a :: r))
            (padMin (dataMin (a :: r)) (dataMax (a :: r)))
            (padMax (dataMin (a :: r)) (dataMax (a :: r)))).length - cfg.degree - 1⟩ := rfl

/-- Every state produced by fit satisfies the cached-n_bases equation. -/
lemma fit_n_bases (cfg : BSplineCfg) (X : NpInput) (st : Fitted)
    (hfit : fitE cfg X = .ok st) :
    st.n_bases_ = st.knots_.length - cfg.degree - 1 := by
  unfold fitE at hfit
  by_cases h : inputCols X ≠ 1
  · rw [if_pos h] at hfit
    exact Except.noConfusion hfit
  · rw [if_neg h] at hfit
    cases hravel : ravel X with
    | nil =>
      rw [hravel] at hfit
      exact Except.noConfusion hfit
    | cons a r =>
      rw [hravel] at hfit
      injection hfit with h2
      subst h2
      rfl

lemma sorted_append_iff {l1 l2 : List ℚ} :
    List.Sorted (· ≤ ·) (l1 ++ l2) ↔
      List.Sorted (· ≤ ·) l1 ∧ List.Sorted (· ≤ ·) l2 ∧ ∀ a ∈ l1, ∀ b ∈ l2, a ≤ b :=
  List.pairwise_append

lemma sorted_replicate (n : ℕ) (a : ℚ) : List.Sorted (· ≤ ·) (List.replicate n a) :=
  List.pairwise_replicate.mpr (Or.inr le_rfl)

/-- Claim C2 (corrected): the knot vector built by fit is always the
concatenation [padded x_min repeated degree+1 times] ++ interior ++
[padded x_max repeated degree+1 times], of length n_interior +
2·(degree+1), with n_bases cached as len(knots) - degree - 1; it is
non-decreasing provided the resolved interior knots are themselves sorted
and lie within the padded extremes (the code never checks this — see the
counterexample with in-invariant explicit knots outside the data range). -/
theorem claim2_knot_vector_structure (cfg : BSplineCfg) (a : ℚ) (r : List ℚ) (st : Fitted)
    (hfit : fitE cfg (.one (a :: r)) = .ok st) :
    st.knots_ =
      List.replicate (cfg.degree + 1) (padMin (dataMin (a :: r)) (dataMax (a :: r))) ++
        resolveInterior cfg (a :: r) ++
        List.replicate (cfg.degree + 1) (padMax (dataMin (a :: r)) (dataMax (a :: r))) ∧
    st.knots_.length = (resolveInterior cfg (a :: r)).length + 2 * (cfg.degree + 1) ∧
    st.n_bases_ = st.knots_.length - cfg.degree - 1 ∧
    (List.Sorted (· ≤ ·) (resolveInterior cfg (a :: r)) →
      (∀ k ∈ resolveInterior cfg (a :: r),
        padMin (dataMin (a :: r)) (dataMax (a :: r)) ≤ k ∧
          k ≤ padMax (dataMin (a :: r)) (dataMax (a :: r))) →
      List.Sorted (· ≤ ·) st.knots_) := by
  rw [fitE_one_eq] at hfit
  injection hfit with h2
  subst h2
  refine ⟨rfl, ?_, rfl, ?_⟩
  · simp only [buildKnotVector, List.length_append, List.length_replicate]
    omega
  · intro hI hbound
    have hpp : padMin (dataMin (a :: r)) (dataMax (a :: r)) ≤
        padMax (dataMin (a :: r)) (dataMax (a :: r)) :=
      padMin_le_padMax (dataMin_le_dataMax a r)
    show List.Sorted (· ≤ ·) (buildKnotVector _ _ _ _)
    unfold buildKnotVector
    apply sorted_append_iff.mpr
    refine ⟨sorted_append_iff.mpr ⟨sorted_replicate _ _, hI, ?_⟩, sorted_replicate _ _, ?_⟩
    · intro p hp k hk
      rw [List.eq_of_mem_replicate hp]
      exact (hbound k hk).1
    · intro p hp k hk
      rw [List.eq_of_mem_replicate hk]
      rcases List.mem_append.mp hp with h1 | h2
      · rw [List.eq_of_mem_replicate h1]
        exact hpp
      · exact (hbound p h2).2

/-- Counterexample for C2 as frozen: with the in-invariant (strictly
ascending) explicit knots [100, 200] and data [0, 1], fit succeeds and
stores a knot vector that is NOT non-decreasing, because both padded data
extremes are below the explicit knots. -/
theorem claim2_counterexample :
    List.Sorted (· < ·) [(100 : ℚ), 200] ∧
    exceptIsOk (fitE ⟨1, 5, some [100, 200], true⟩ (.one [0, 1])) = true ∧
    ¬List.Sorted (· ≤ ·)
      (fittedKnots (fitE ⟨1, 5, some [100, 200], true⟩ (.one [0, 1]))) := by
  refine ⟨by decide, rfl, ?_⟩
  intro hsort
  have hK : fittedKnots (fitE ⟨1, 5, some [100, 200], true⟩ (.one [0, 1])) =
      [-(1 / 10 ^ 10), -(1 / 10 ^ 10), 100, 200,
        1 + 1 / 10 ^ 10 + 1 / 10 ^ 20, 1 + 1 / 10 ^ 10 + 1 / 10 ^ 20] := by
    norm_num [fittedKnots, fitE, inputCols, ravel, resolveInterior, buildKnotVector,
      List.replicate, padMin, padMax, dataMin, dataMax, eps, min_def, max_def]
  rw [hK] at hsort
  norm_num [List.sorted_cons] at hsort

/-- Witness for the amended C2 at demoCfg (explicit interior knot 1/2,
inside the padded range) on data [0, 1]. -/
theorem claim2_witness :
    fitE demoCfg (.one [(0 : ℚ), 1]) = .ok demoFit ∧
    List.Sorted (· ≤ ·) (resolveInterior demoCfg [(0 : ℚ), 1]) ∧
    (∀ k ∈ resolveInterior demoCfg [(0 : ℚ), 1],
      padMin (dataMin [(0 : ℚ), 1]) (dataMax [(0 : ℚ), 1]) ≤ k ∧
        k ≤ padMax (dataMin [(0 : ℚ), 1]) (dataMax [(0 : ℚ), 1])) ∧
    (demoFit.knots_ =
      List.replicate (demoCfg.degree + 1)
          (padMin (dataMin [(0 : ℚ), 1]) (dataMax [(0 : ℚ), 1])) ++
        resolveInterior demoCfg [(0 : ℚ), 1] ++
        List.replicate (demoCfg.degree + 1)
          (padMax (dataMin [(0 : ℚ), 1]) (dataMax [(0 : ℚ), 1])) ∧
    demoFit.knots_.length = (resolveInterior demoCfg [(0 : ℚ), 1]).length +
      2 * (demoCfg.degree + 1) ∧
    demoFit.n_bases_ = demoFit.knots_.length - demoCfg.degree - 1 ∧
    (List.Sorted (· ≤ ·) (resolveInterior demoCfg [(0 : ℚ), 1]) →
      (∀ k ∈ resolveInterior demoCfg [(0 : ℚ), 1],
        padMin (dataMin [(0 : ℚ), 1]) (dataMax [(0 : ℚ), 1]) ≤ k ∧
          k ≤ padMax (dataMin [(0 : ℚ), 1]) (dataMax [(0 : ℚ), 1])) →
      List.Sorted (· ≤ ·) demoFit.knots_)) := by
  have hfit : fitE demoCfg (.one [(0 : ℚ), 1]) = .ok demoFit := rfl
  have hI : List.Sorted (· ≤ ·) (resolveInterior demoCfg [(0 : ℚ), 1]) := by
    simp [resolveInterior, demoCfg]
  have hb : ∀ k ∈ resolveInterior demoCfg [(0 : ℚ), 1],
      padMin (dataMin [(0 : ℚ), 1]) (dataMax [(0 : ℚ), 1]) ≤ k ∧
        k ≤ padMax (dataMin [(0 : ℚ), 1]) (dataMax [(0 : ℚ), 1]) := by
    intro k hk
    simp only [resolveInterior, demoCfg] at hk
    rw [List.mem_singleton] at hk
    subst hk
    norm_num [padMin, padMax, dataMin, dataMax, eps, min_def, max_def]
  exact ⟨hfit, hI, hb, claim2_knot_vector_structure demoCfg 0 [1] demoFit hfit⟩

/-- Claim C5 (corrected): there is no InvalidInputError. The only
validation fit performs is the single-feature shape check, raising
ValueError; for every non-negative degree (the range this embedding
models, and the range all the claims quantify over) any nonempty 1-D
input makes fit succeed regardless of explicit-knot order or of the
resulting n_bases (empty input fails only inside numpy's reductions);
transform before fit fails with AttributeError when reading the fitted
attributes. Negative degrees are outside the model: the source does not
check them eagerly either, but degree ≤ -2 later raises a ValueError
inside np.repeat, so nothing is asserted about them here. -/
theorem claim5_error_behavior :
    (∀ (cfg : BSplineCfg) (a : ℚ) (r : List ℚ),
      exceptIsOk (fitE cfg (.one (a :: r))) = true) ∧
    (∀ (cfg : BSplineCfg) (X : NpInput), inputCols X ≠ 1 →
      fitE cfg X = .error .valueError) ∧
    (∀ cfg : BSplineCfg, fitE cfg (.one []) = .error .emptyReduceError) ∧
    (∀ (cfg : BSplineCfg) (X : NpInput), transformE cfg none X = .error .attributeError) := by
  refine ⟨?_, ?_, ?_, ?_⟩
  · intro cfg a r
    rfl
  · intro cfg X h
    unfold fitE
    rw [if_pos h]
  · intro cfg
    rfl
  · intro cfg X
    rfl

/-- Counterexample for C5 as frozen: with the non-ascending explicit
knots [1, 0], fit raises nothing at all (no InvalidInputError exists in
the code), directly contradicting the claimed validation. -/
theorem claim5_counterexample :
    ¬List.Sorted (· ≤ ·) [(1 : ℚ), 0] ∧
    exceptIsOk (fitE ⟨1, 5, some [(1 : ℚ), 0], true⟩ (.one [0, 1])) = true := by
  constructor
  · decide
  · rfl

/-- Witness for the amended C5: fit succeeds on nonempty 1-D data, raises
ValueError on 2-column input, and transform before fit raises
AttributeError. -/
theorem claim5_witness :
    exceptIsOk (fitE ⟨3, 5, none, true⟩ (.one [(0 : ℚ), 1])) = true ∧
    inputCols (NpInput.two [[(0 : ℚ), 0]]) ≠ 1 ∧
    fitE ⟨3, 5, none, true⟩ (.two [[(0 : ℚ), 0]]) = .error .valueError ∧
    transformE ⟨3, 5, none, true⟩ none (.one [(0 : ℚ)]) = .error .attributeError := by
  have h2 : inputCols (NpInput.two [[(0 : ℚ), 0]]) ≠ 1 := by decide
  exact ⟨claim5_error_behavior.1 ⟨3, 5, none, true⟩ 0 [1], h2,
    claim5_error_behavior.2.1 ⟨3, 5, none, true⟩ _ h2,
    claim5_error_behavior.2.2.2 ⟨3, 5, none, true⟩ (.one [(0 : ℚ)])⟩

/-- Claim C8: on a fitted state, transform over m one-dimensional samples
returns the matrix whose row k is the evaluator's output for sample k
(with column 0 dropped when include_bias is false); it has m rows, and
every row has n_bases columns with bias and n_bases - 1 without. -/
theorem claim8_transform_shape (cfg : BSplineCfg) (X : NpInput) (st : Fitted) (xs : List ℚ)
    (hfit : fitE cfg X = .ok st) :
    transformE cfg (some st) (.one xs) =
      .ok (if cfg.include_bias then xs.map (fun v => bsplineBasis v cfg.degree st.knots_)
        else (xs.map (fun v => bsplineBasis v cfg.degree st.knots_)).map
          (fun row => row.drop 1)) ∧
    (if cfg.include_bias then xs.map (fun v => bsplineBasis v cfg.degree st.knots_)
        else (xs.map (fun v => bsplineBasis v cfg.degree st.knots_)).map
          (fun row => row.drop 1)).length = xs.length ∧
    ∀ row ∈ (if cfg.include_bias then xs.map (fun v => bsplineBasis v cfg.degree st.knots_)
        else (xs.map (fun v => bsplineBasis v cfg.degree st.knots_)).map
          (fun row => row.drop 1)),
      row.length = if cfg.include_bias then st.n_bases_ else st.n_bases_ - 1 := by
  have hnb := fit_n_bases cfg X st hfit
  refine ⟨rfl, ?_, ?_⟩
  · by_cases hb : cfg.include_bias = true <;> simp [hb]
  · intro row hrow
    by_cases hb : cfg.include_bias = true
    · simp only [hb, if_pos] at hrow ⊢
      obtain ⟨v, _, rfl⟩ := List.mem_map.mp hrow
      rw [bsplineBasis_length]
      unfold nBases
      omega
    · simp only [hb] at hrow ⊢
      rw [if_neg (by simp [hb])] at hrow ⊢
      obtain ⟨row0, hrow0, rfl⟩ := List.mem_map.mp hrow
      obtain ⟨v, _, rfl⟩ := List.mem_map.mp hrow0
      rw [List.length_drop, bsplineBasis_length]
      unfold nBases
      omega

/-- Witness for C8 at demoCfg fitted on [0, 1], transforming the single
sample 1/4. -/
theorem claim8_witness :
    fitE demoCfg (.one [(0 : ℚ), 1]) = .ok demoFit ∧
    (transformE demoCfg (some demoFit) (.one [(1 : ℚ) / 4]) =
      .ok (if demoCfg.include_bias then
          [(1 : ℚ) / 4].map (fun v => bsplineBasis v demoCfg.degree demoFit.knots_)
        else ([(1 : ℚ) / 4].map (fun v => bsplineBasis v demoCfg.degree demoFit.knots_)).map
          (fun row => row.drop 1)) ∧
    (if demoCfg.include_bias then
        [(1 : ℚ) / 4].map (fun v => bsplineBasis v demoCfg.degree demoFit.knots_)
      else ([(1 : ℚ) / 4].map (fun v => bsplineBasis v demoCfg.degree demoFit.knots_)).map
        (fun row => row.drop 1)).length = ([(1 : ℚ) / 4]).length ∧
    ∀ row ∈ (if demoCfg.include_bias then
        [(1 : ℚ) / 4].map (fun v => bsplineBasis v demoCfg.degree demoFit.knots_)
      else ([(1 : ℚ) / 4].map (fun v => bsplineBasis v demoCfg.degree demoFit.knots_)).map
        (fun row => row.drop 1)),
      row.length = if demoCfg.include_bias then demoFit.n_bases_
        else demoFit.n_bases_ - 1) := by
  have hfit : fitE demoCfg (.one [(0 : ℚ), 1]) = .ok demoFit := rfl
  exact ⟨hfit, claim8_transform_shape demoCfg (.one [(0 : ℚ), 1]) demoFit [(1 : ℚ) / 4] hfit⟩

/-- With an all-equal knot vector and the query at that very value, every
elevation level from 1 on is identically zero: each recursion term is
killed by the zero-denominator guard at level 1, and zero propagates. -/
lemma basisLevel_const_zero (K : List ℚ) (c : ℚ) (nb : ℕ) (span : ℤ)
    (hkt : ∀ j, j < K.length → kt K j = c)
    (hlen : nb + 2 ≤ K.length) :
    ∀ d, 1 ≤ d → ∀ i, basisLevel K c nb span d i = 0 := by
  intro d
  induction d with
  | zero => intro h; exact absurd h (by omega)
  | succ d ih =>
    intro _ i
    by_cases hd0 : d = 0
    · subst hd0
      simp only [basisLevel, coxStep]
      split
      · rename_i hi
        have h1 : kt K (i + 1) - kt K i = 0 := by
          rw [hkt (i + 1) (by omega), hkt i (by omega)]
          ring
        have h2 : kt K (i + 1 + 1) - kt K (i + 1) = 0 := by
          rw [hkt (i + 1 + 1) (by omega), hkt (i + 1) (by omega)]
          ring
        simp [coxL, coxR, h1, h2]
      · rfl
    · have hprev := ih (by omega)
      simp only [basisLevel, coxStep]
      split
      · simp [coxL, coxR, hprev]
      · rfl

/-- Claim C10: on constant data (with quantile-derived knots), fit
succeeds without raising and every entry of the stored knot vector equals
the constant; for every degree ≥ 1, evaluating at that constant returns a
row of exact zeros (the zero-denominator guard skips every term), so the
row's sum is 0 and partition of unity fails while the computation stays
total. -/
theorem claim10_constant_data (c : ℚ) (m n_knots degree : ℕ) (hdeg : 1 ≤ degree) :
    exceptIsOk (fitE ⟨degree, n_knots, none, true⟩
      (.one (List.replicate (m + 1) c))) = true ∧
    ∀ st, fitE ⟨degree, n_knots, none, true⟩ (.one (List.replicate (m + 1) c)) = .ok st →
      (∀ k ∈ st.knots_, k = c) ∧
      bsplineBasis c degree st.knots_ = List.replicate st.n_bases_ 0 ∧
      (bsplineBasis c degree st.knots_).sum = 0 := by
  constructor
  · rw [List.replicate_succ]
    rfl
  · intro st hfit
    rw [List.replicate_succ, fitE_one_eq] at hfit
    injection hfit with h2
    subst h2
    have hflat_rep : c :: List.replicate m c = List.replicate (m + 1) c :=
      (List.replicate_succ c m).symm
    have hdmin : dataMin (c :: List.replicate m c) = c := by
      rw [hflat_rep, dataMin_const]
    have hdmax : dataMax (c :: List.replicate m c) = c := by
      rw [hflat_rep, dataMax_const]
    have hpmin : padMin (dataMin (c :: List.replicate m c))
        (dataMax (c :: List.replicate m c)) = c := by
      rw [hdmin, hdmax, padMin_self]
    have hpmax : padMax (dataMin (c :: List.replicate m c))
        (dataMax (c :: List.replicate m c)) = c := by
      rw [hdmin, hdmax, padMax_self]
    have hImem : ∀ k ∈ resolveInterior ⟨degree, n_knots, none, true⟩
        (c :: List.replicate m c), k = c := by
      intro k hk
      simp only [resolveInterior] at hk
      rcases List.mem_map.mp hk with ⟨q, hq, heq⟩
      obtain ⟨h0, h1⟩ := quantileProbs_bounds n_knots q hq
      rw [← heq]
      apply npQuantile_const (by simp) _ h0 h1
      intro y hy
      rw [hflat_rep] at hy
      exact List.eq_of_mem_replicate hy
    have hKmem : ∀ k ∈ buildKnotVector degree
        (resolveInterior ⟨degree, n_knots, none, true⟩ (c :: List.replicate m c))
        (padMin (dataMin (c :: List.replicate m c)) (dataMax (c :: List.replicate m c)))
        (padMax (dataMin (c :: List.replicate m c)) (dataMax (c :: List.replicate m c))),
        k = c := by
      intro k hk
      unfold buildKnotVector at hk
      rcases List.mem_append.mp hk with h1 | h2
      · rcases List.mem_append.mp h1 with h3 | h4
        · rw [List.eq_of_mem_replicate h3, hpmin]
        · exact hImem k h4
      · rw [List.eq_of_mem_replicate h2, hpmax]
    set K := buildKnotVector degree
        (resolveInterior ⟨degree, n_knots, none, true⟩ (c :: List.replicate m c))
        (padMin (dataMin (c :: List.replicate m c)) (dataMax (c :: List.replicate m c)))
        (padMax (dataMin (c :: List.replicate m c)) (dataMax (c :: List.replicate m c)))
      with hKdef
    have hKlen : K.length =
        (resolveInterior ⟨degree, n_knots, none, true⟩ (c :: List.replicate m c)).length +
          2 * (degree + 1) := by
      rw [hKdef]
      simp only [buildKnotVector, List.length_append, List.length_replicate]
      omega
    have hkt : ∀ j, j < K.length → kt K j = c := fun j hj => hKmem _ (kt_mem hj)
    have hzero := basisLevel_const_zero K c (nBases K degree) (findSpan K degree c) hkt
      (by unfold nBases; omega) degree hdeg
    have hrow : bsplineBasis c degree K = List.replicate (K.length - degree - 1) 0 := by
      rw [bsplineBasis]
      calc (List.range (nBases K degree)).map
            (basisLevel K c (nBases K degree) (findSpan K degree c) degree)
          = (List.range (nBases K degree)).map (fun _ => (0 : ℚ)) :=
            List.map_eq_map_iff.mpr (fun i _ => hzero i)
        _ = List.replicate (nBases K degree) 0 := by
            rw [List.map_const', List.length_range]
    refine ⟨hKmem, hrow, ?_⟩
    rw [hrow]
    simp

/-- Witness for C10: constant data [3] with constCfg (degree 1, one
quantile knot): fit succeeds, the knots are all 3, and the basis row at
x = 3 is all zeros with sum 0. -/
theorem claim10_witness :
    1 ≤ 1 ∧
    fitE constCfg (.one (List.replicate 1 (3 : ℚ))) = .ok constFit ∧
    ((∀ k ∈ constFit.knots_, k = 3) ∧
      bsplineBasis 3 1 constFit.knots_ = List.replicate constFit.n_bases_ 0 ∧
      (bsplineBasis 3 1 constFit.knots_).sum = 0) := by
  have hfit : fitE constCfg (.one (List.replicate 1 (3 : ℚ))) = .ok constFit := rfl
  exact ⟨le_rfl, hfit, (claim10_constant_data 3 0 1 1 le_rfl).2 constFit hfit⟩

end BSplineImpl
